import Mathlib

/-!
Verification development for the competitive price monitor in `src/watch.py`.

The Python program is shallowly embedded: every pure computation (the price
normalizer `norm_price`, the extraction fallback chain of `extract_price`, the
change-detection logic of `main`, the proxy gate `maybe_proxy`) is translated
into an executable Lean definition; the effectful pieces (HTTP requests,
`time.time`/`time.sleep`, `random.uniform`, BeautifulSoup parsing) are modelled
by explicit inputs: per-attempt status codes, jitter draws and durations are
parameters, clock time is an exact rational that advances by precisely the
slept amount, and a fetched document is a `Page` record holding the outcomes
of the HTML-parsing library on that document.  Python floats are modelled as
exact rationals `ℚ` (the spec's numeric examples are exactly representable),
and Python strings as Lean `String`/`List Char`.
-/

set_option maxHeartbeats 1000000

namespace Watch

/-! ## Price normalizer (`norm_price`, src/watch.py lines 124-133)

`norm_price` first runs `re.sub(r"[^0-9\.]", "", str(text))` (the default
`NORMALIZE_REGEX`), which keeps exactly the ASCII digits and the period; then,
if more than one period remains, `cleaned.replace(".", "", count-1)` deletes
all but the last one; finally `float(cleaned) if cleaned else None`, with a
`ValueError` mapped to `None`. -/

/-- Predicate for the characters kept by the default pattern `[^0-9\.]`:
ASCII digits and the period. -/
def keepChar (c : Char) : Bool := c.isDigit || c == ('.')

/-- Result of `re.sub(r"[^0-9\.]", "", s)`: the kept characters of `s`. -/
def pyCleanDefault (s : String) : List Char := s.data.filter keepChar

/-- Model of Python `str.replace(c, "", n)` on a character list: delete the
first `n` occurrences of `c`. -/
def removeFirstOccs (c : Char) : Nat → List Char → List Char
  | 0, l => l
  | _ + 1, [] => []
  | n + 1, x :: xs => if x = c then removeFirstOccs c n xs else x :: removeFirstOccs c (n + 1) xs

/-- The dot-deduplication step of `norm_price`: when more than one period
remains, delete all but the final one (`cleaned.replace(".", "", count-1)`). -/
def dedupDots (l : List Char) : List Char :=
  if l.count ('.') > 1 then removeFirstOccs ('.') (l.count ('.') - 1) l else l

/-- Numeric value of a digit string, most significant digit first. -/
def digitsVal (l : List Char) : Nat := l.foldl (fun n c => 10 * n + (c.toNat - 48)) 0

/-- Model of `float(cleaned) if cleaned else None` (inside `try/except
ValueError`) on a cleaned string: the empty string gives `none`; a pure digit
string parses as an integer; a string with a single period and at least one
digit parses as the denoted decimal; everything else raises `ValueError`,
mapped to `none`.  Values are exact rationals. -/
def parseCleaned (l : List Char) : Option ℚ :=
  if l = [] then none
  else if l.count ('.') = 0 then
    if l.all Char.isDigit then some ((digitsVal l : ℚ)) else none
  else if l.count ('.') = 1 then
    if (l.takeWhile (fun c => c != ('.'))).all Char.isDigit
        && ((l.dropWhile (fun c => c != ('.'))).tail).all Char.isDigit
        && (!(l.takeWhile (fun c => c != ('.'))).isEmpty
            || !((l.dropWhile (fun c => c != ('.'))).tail).isEmpty) then
      some ((digitsVal (l.takeWhile (fun c => c != ('.'))) : ℚ)
        + (digitsVal ((l.dropWhile (fun c => c != ('.'))).tail) : ℚ)
          / (10 : ℚ) ^ ((l.dropWhile (fun c => c != ('.'))).tail).length)
    else none
  else none

/-- `norm_price` (src/watch.py lines 124-133) with the default normalization
pattern: clean, deduplicate periods, parse. -/
def norm_price (s : String) : Option ℚ := parseCleaned (dedupDots (pyCleanDefault s))

/-! ### Helper lemmas for the normalizer -/

theorem removeFirstOccs_count_append (c : Char) (l1 l2 : List Char) :
    removeFirstOccs c (l1.count c) (l1 ++ l2) = l1.filter (fun x => x != c) ++ l2 := by
  induction l1 with
  | nil => simp [removeFirstOccs]
  | cons x xs ih =>
    by_cases hx : x = c
    · subst hx
      rw [List.count_cons_self]
      simpa [removeFirstOccs] using ih
    · have hcount : (x :: xs).count c = xs.count c := by
        simp [List.count_cons, hx]
      rw [hcount]
      cases hn : xs.count c with
      | zero =>
        have hnotmem : c ∉ xs := List.count_eq_zero.mp hn
        have hfil : xs.filter (fun y => y != c) = xs := by
          apply List.filter_eq_self.mpr
          intro a ha
          simp only [bne_iff_ne, ne_eq]
          exact fun hac => hnotmem (hac ▸ ha)
        simp [removeFirstOccs, hfil, hx]
      | succ m =>
        rw [hn] at ih
        rw [List.cons_append]
        have hstep : removeFirstOccs c (m + 1) (x :: (xs ++ l2))
            = x :: removeFirstOccs c (m + 1) (xs ++ l2) := by
          simp [removeFirstOccs, hx]
        rw [hstep, ih]
        simp [List.filter_cons, hx]

theorem takeWhile_dropWhile_split (pre post : List Char) (hpre : pre.count ('.') = 0) :
    (pre ++ ('.') :: post).takeWhile (fun c => c != ('.')) = pre
    ∧ (pre ++ ('.') :: post).dropWhile (fun c => c != ('.')) = ('.') :: post := by
  induction pre with
  | nil => simp [List.takeWhile, List.dropWhile]
  | cons x xs ih =>
    have hx : x ≠ ('.') := by
      intro h
      subst h
      simp [List.count_cons_self] at hpre
    have hxs : xs.count ('.') = 0 := by
      simpa [List.count_cons, hx] using hpre
    obtain ⟨h1, h2⟩ := ih hxs
    have hxb : (x != ('.')) = true := by simp [hx]
    constructor
    · rw [List.cons_append, List.takeWhile_cons]
      simp only [hxb, if_true]
      rw [h1]
    · rw [List.cons_append, List.dropWhile_cons]
      simp only [hxb, if_true]
      exact h2

theorem mem_pyCleanDefault_keep {s : String} {c : Char} (h : c ∈ pyCleanDefault s) :
    keepChar c = true := (List.mem_filter.mp h).2

theorem parseCleaned_digits (l : List Char) (h0 : l ≠ []) (h1 : l.count ('.') = 0)
    (h2 : l.all Char.isDigit = true) : parseCleaned l = some ((digitsVal l : ℚ)) := by
  unfold parseCleaned
  rw [if_neg h0, if_pos h1, if_pos h2]

theorem parseCleaned_split (pre post : List Char) (hpre : pre.count ('.') = 0)
    (hpost : post.count ('.') = 0)
    (hd1 : pre.all Char.isDigit = true) (hd2 : post.all Char.isDigit = true)
    (hne : pre ≠ [] ∨ post ≠ []) :
    parseCleaned (pre ++ ('.') :: post)
      = some ((digitsVal pre : ℚ) + (digitsVal post : ℚ) / (10 : ℚ) ^ post.length) := by
  obtain ⟨htake, hdrop⟩ := takeWhile_dropWhile_split pre post hpre
  have hcnt1 : (pre ++ ('.') :: post).count ('.') = 1 := by
    simp [List.count_append, List.count_cons_self, hpre, hpost]
  have hg3 : (!pre.isEmpty || !post.isEmpty) = true := by
    rcases hne with h | h
    · simp [List.isEmpty_iff, h]
    · simp [List.isEmpty_iff, h]
  unfold parseCleaned
  rw [htake, hdrop]
  simp only [List.tail_cons]
  rw [hcnt1]
  rw [if_neg (show ¬(pre ++ ('.') :: post = []) by simp)]
  rw [if_neg (show ¬((1 : Nat) = 0) by norm_num)]
  rw [if_pos (show (1 : Nat) = 1 from rfl)]
  rw [if_pos (show (pre.all Char.isDigit && post.all Char.isDigit
    && (!pre.isEmpty || !post.isEmpty)) = true by simp [hd1, hd2, hg3])]

/-- Evaluation helper: `norm_price` on an input whose cleaned, deduplicated
form is a nonempty digit string. -/
theorem norm_price_digits (s : String) (l : List Char) (q : ℚ)
    (hded : dedupDots (pyCleanDefault s) = l) (h0 : l ≠ []) (h1 : l.count ('.') = 0)
    (h2 : l.all Char.isDigit = true) (hq : (digitsVal l : ℚ) = q) :
    norm_price s = some q := by
  unfold norm_price
  rw [hded, parseCleaned_digits l h0 h1 h2, hq]

/-- Evaluation helper: `norm_price` on an input whose cleaned, deduplicated
form has a single period. -/
theorem norm_price_split (s : String) (pre post : List Char) (q : ℚ)
    (hded : dedupDots (pyCleanDefault s) = pre ++ ('.') :: post)
    (hpre : pre.count ('.') = 0) (hpost : post.count ('.') = 0)
    (hd1 : pre.all Char.isDigit = true) (hd2 : post.all Char.isDigit = true)
    (hne : pre ≠ [] ∨ post ≠ [])
    (hq : (digitsVal pre : ℚ) + (digitsVal post : ℚ) / (10 : ℚ) ^ post.length = q) :
    norm_price s = some q := by
  unfold norm_price
  rw [hded, parseCleaned_split pre post hpre hpost hd1 hd2 hne, hq]

/-- Claim C2: `norm_price` first strips the characters removed by the default
pattern (leaving digits and periods); when the cleaned string contains exactly
one period (written `pre ++ "." ++ post` with dot-free `pre`, `post`) and at
least one digit, the parsed value is exactly the denoted decimal value, i.e.
parsing round-trips the cleaned string's numeric value; when `k > 1` periods
remain, the string actually parsed is the cleaned string with the first `k-1`
periods removed — exactly the last period survives. -/
theorem c2_norm_price_roundtrip (s : String) (pre post : List Char) :
    (pyCleanDefault s = pre ++ ('.') :: post → pre.count ('.') = 0 → post.count ('.') = 0 →
      (pre ≠ [] ∨ post ≠ []) →
      norm_price s = some ((digitsVal pre : ℚ) + (digitsVal post : ℚ) / (10 : ℚ) ^ post.length))
    ∧ (pyCleanDefault s = pre ++ ('.') :: post → 0 < pre.count ('.') → post.count ('.') = 0 →
      dedupDots (pyCleanDefault s) = pre.filter (fun x => x != ('.')) ++ ('.') :: post
      ∧ (dedupDots (pyCleanDefault s)).count ('.') = 1) := by
  constructor
  · intro hclean hpre hpost hne
    have hdigit : ∀ c ∈ pyCleanDefault s, c ≠ ('.') → c.isDigit = true := by
      intro c hc hcd
      have := mem_pyCleanDefault_keep hc
      simp only [keepChar, Bool.or_eq_true, beq_iff_eq] at this
      exact this.resolve_right hcd
    have hpredig : ∀ c ∈ pre, c.isDigit = true := by
      intro c hc
      have hcne : c ≠ ('.') := by
        intro h
        subst h
        exact (List.count_eq_zero.mp hpre) hc
      exact hdigit c (by rw [hclean]; exact List.mem_append_left _ hc) hcne
    have hpostdig : ∀ c ∈ post, c.isDigit = true := by
      intro c hc
      have hcne : c ≠ ('.') := by
        intro h
        subst h
        exact (List.count_eq_zero.mp hpost) hc
      exact hdigit c (by rw [hclean]; exact List.mem_append_right _ (List.mem_cons_of_mem _ hc)) hcne
    have hcnt1 : (pre ++ ('.') :: post).count ('.') = 1 := by
      simp [List.count_append, List.count_cons_self, hpre, hpost]
    have hded : dedupDots (pyCleanDefault s) = pre ++ ('.') :: post := by
      unfold dedupDots
      rw [hclean, hcnt1]
      norm_num
    have hg1 : pre.all Char.isDigit = true := List.all_eq_true.mpr hpredig
    have hg2 : post.all Char.isDigit = true := List.all_eq_true.mpr hpostdig
    unfold norm_price
    rw [hded]
    exact parseCleaned_split pre post hpre hpost hg1 hg2 hne
  · intro hclean hpre hpost
    have hcount : (pyCleanDefault s).count ('.') = pre.count ('.') + 1 := by
      rw [hclean]
      simp [List.count_append, List.count_cons_self, hpost]
    have hgt : (pyCleanDefault s).count ('.') > 1 := by omega
    constructor
    · unfold dedupDots
      rw [if_pos hgt, hcount]
      simp only [Nat.add_sub_cancel]
      rw [hclean]
      exact removeFirstOccs_count_append ('.') pre (('.') :: post)
    · unfold dedupDots
      rw [if_pos hgt, hcount]
      simp only [Nat.add_sub_cancel]
      rw [hclean, removeFirstOccs_count_append ('.') pre (('.') :: post)]
      have : (pre.filter (fun x => x != ('.'))).count ('.') = 0 := by
        rw [List.count_eq_zero]
        intro hmem
        have := (List.mem_filter.mp hmem).2
        simp at this
      simp [List.count_append, List.count_cons_self, this, hpost]

/-- Witness for C2 at concrete inputs: the cleaned form of `"$12.50"` is
`12.50`, which parses exactly to `12 + 50/100`; the cleaned form of
`"$1.234.56"` has two periods and only the last survives deduplication. -/
theorem c2_norm_price_roundtrip_witness :
    norm_price ("$12.50")
      = some ((digitsVal (('1') :: ('2') :: []) : ℚ)
          + (digitsVal (('5') :: ('0') :: []) : ℚ) / (10 : ℚ) ^ (('5') :: ('0') :: []).length)
    ∧ dedupDots (pyCleanDefault ("$1.234.56"))
      = (('1') :: ('.') :: ('2') :: ('3') :: ('4') :: []).filter (fun x => x != ('.'))
          ++ ('.') :: (('5') :: ('6') :: []) := by
  constructor
  · exact (c2_norm_price_roundtrip ("$12.50") (('1') :: ('2') :: []) (('5') :: ('0') :: [])).1
      (by decide) (by decide) (by decide) (by decide)
  · exact ((c2_norm_price_roundtrip ("$1.234.56") (('1') :: ('.') :: ('2') :: ('3') :: ('4') :: [])
      (('5') :: ('6') :: [])).2 (by decide) (by decide) (by decide)).1

/-! ## Heuristic dollar-amount scan (`extract_price` step 4, src/watch.py lines 220-227)

Step 4 runs `re.findall(r"\$([0-9][\d,\.]+)", html)`: a left-to-right,
non-overlapping, greedy scan.  A match needs a literal dollar sign, one ASCII
digit, then one or more characters from the class digit/comma/period; on a
failed match the scan resumes one position later, on a success it resumes
after the match. -/

/-- Characters matched by `[\d,\.]` (ASCII model of the class). -/
def isPriceChar (c : Char) : Bool := c.isDigit || c == (',') || c == ('.')

theorem length_dropWhile_le (p : Char → Bool) (l : List Char) :
    (l.dropWhile p).length ≤ l.length := by
  induction l with
  | nil => simp [List.dropWhile]
  | cons x xs ih =>
    rw [List.dropWhile_cons]
    cases hp : p x
    · simp
    · simp only [if_pos rfl]
      exact Nat.le_succ_of_le ih

/-- All captured groups of `re.findall(r"\$([0-9][\d,\.]+)", html)`, in
order: a dollar sign, a digit `d`, then a nonempty greedy run of price
characters; on failure the scan resumes one position later, on success it
resumes after the match. -/
def dollarTokens : List Char → List (List Char)
  | [] => []
  | c :: rest =>
    if c = ('$') then
      match rest with
      | [] => []
      | d :: rest2 =>
        if d.isDigit then
          if (rest2.takeWhile isPriceChar).isEmpty then dollarTokens (d :: rest2)
          else (d :: rest2.takeWhile isPriceChar) :: dollarTokens (rest2.dropWhile isPriceChar)
        else dollarTokens (d :: rest2)
    else dollarTokens rest
termination_by l => l.length
decreasing_by
  · simp
  · simp only [List.length_cons]
    have := length_dropWhile_le isPriceChar rest2
    omega
  · simp
  · simp

/-- Normalized values of the dollar tokens found in the page text
(`[norm_price(n, regex) for n in re.findall(...)]` with `None` filtered out). -/
def heuristicAmounts (html : String) : List ℚ :=
  (dollarTokens html.data).filterMap (fun t => norm_price (String.mk t))

/-- Python `max` on a nonempty list, given as head and tail. -/
def maxQ (a : ℚ) (l : List ℚ) : ℚ := l.foldl max a

/-- Step 4 of `extract_price`: keep the amounts at or above the floor if any
(`candidates = [a for a in amounts if a >= MIN_PRICE_FLOOR] or amounts`), and
return their maximum; `none` when no dollar token was found at all. -/
def strat4 (html : String) (floor : ℚ) : Option ℚ :=
  match heuristicAmounts html with
  | [] => none
  | a :: as =>
    match (a :: as).filter (fun x => decide (floor ≤ x)) with
    | [] => some (maxQ a as)
    | c :: cs => some (maxQ c cs)

theorem le_maxQ_self (a : ℚ) (l : List ℚ) : a ≤ maxQ a l := by
  induction l generalizing a with
  | nil => simp [maxQ]
  | cons x xs ih =>
    have h1 : a ≤ max a x := le_max_left a x
    calc a ≤ max a x := h1
    _ ≤ maxQ (max a x) xs := ih (max a x)
    _ = maxQ a (x :: xs) := rfl

theorem le_maxQ_of_mem {x : ℚ} {l : List ℚ} (a : ℚ) (h : x ∈ l) : x ≤ maxQ a l := by
  induction l generalizing a with
  | nil => cases h
  | cons y ys ih =>
    rcases List.mem_cons.mp h with hy | hy
    · subst hy
      calc x ≤ max a x := le_max_right a x
      _ ≤ maxQ (max a x) ys := le_maxQ_self _ ys
      _ = maxQ a (x :: ys) := rfl
    · exact ih (max a y) hy

theorem maxQ_mem (a : ℚ) (l : List ℚ) : maxQ a l = a ∨ maxQ a l ∈ l := by
  induction l generalizing a with
  | nil => left; rfl
  | cons x xs ih =>
    rcases ih (max a x) with h | h
    · rcases le_total a x with hax | hxa
      · right
        rw [show maxQ a (x :: xs) = maxQ (max a x) xs from rfl, h, max_eq_right hax]
        exact List.mem_cons_self x xs
      · left
        rw [show maxQ a (x :: xs) = maxQ (max a x) xs from rfl, h, max_eq_left hxa]
    · right
      rw [show maxQ a (x :: xs) = maxQ (max a x) xs from rfl]
      exact List.mem_cons_of_mem x h

/-! ## JSON-LD price search (`extract_price` step 2, src/watch.py lines 168-197)

Each `script[type="application/ld+json"]` block is parsed with `json.loads`
(a failing parse is skipped by the `try/except`); the nested `find_price`
walks the parsed value depth first, returning a dict's `"price"` entry when
present and truthy, then recursing into `"offers"`, then into every value. -/

/-- Parsed JSON value.  `jnum` carries both the textual representation that
Python's `str` would print for the parsed number and its exact numeric value
(used for truthiness). -/
inductive Jld where
  | jnull : Jld
  | jbool : Bool → Jld
  | jstr : String → Jld
  | jnum : String → ℚ → Jld
  | jarr : List Jld → Jld
  | jobj : List (String × Jld) → Jld
deriving Inhabited

/-- Python truthiness of a JSON value (`if obj["price"]:`). -/
def jTruthy : Jld → Bool
  | .jnull => false
  | .jbool b => b
  | .jstr s => !s.isEmpty
  | .jnum _ v => decide (v ≠ 0)
  | .jarr xs => !xs.isEmpty
  | .jobj fs => !fs.isEmpty

/-- Python dict lookup on the parsed object's (unique-key) field list. -/
def lookupField (fs : List (String × Jld)) (k : String) : Option Jld :=
  (fs.find? (fun kv => kv.1 == k)).map (fun kv => kv.2)

mutual

/-- `find_price(obj)`: on a dict, return the truthy `"price"` entry if any;
otherwise recurse into `"offers"` when that key exists, then into the dict's
values in order; on a list, recurse into the items in order; scalars yield
`None`. -/
def findPrice : Jld → Option Jld
  | .jobj fs =>
    match lookupField fs ("price") with
    | some v =>
      if jTruthy v then some v
      else
        match findPriceOffers fs with
        | some p => some p
        | none => findPriceVals fs
    | none =>
      match findPriceOffers fs with
      | some p => some p
      | none => findPriceVals fs
  | .jarr xs => findPriceList xs
  | _ => none

/-- The `if "offers" in obj:` step: recurse into the first `"offers"` value. -/
def findPriceOffers : List (String × Jld) → Option Jld
  | [] => none
  | (k, v) :: rest => if k == ("offers") then findPrice v else findPriceOffers rest

/-- The `for v in obj.values():` loop. -/
def findPriceVals : List (String × Jld) → Option Jld
  | [] => none
  | (_, v) :: rest =>
    match findPrice v with
    | some p => some p
    | none => findPriceVals rest

/-- The `for it in obj:` loop on lists. -/
def findPriceList : List Jld → Option Jld
  | [] => none
  | x :: rest =>
    match findPrice x with
    | some p => some p
    | none => findPriceList rest

end

mutual

/-- Python `repr` of a JSON value (elements inside containers). -/
def pyReprJ : Jld → String
  | .jnull => ("None")
  | .jbool true => ("True")
  | .jbool false => ("False")
  | .jstr s => ("'") ++ s ++ ("'")
  | .jnum r _ => r
  | .jarr xs => ("[") ++ pyReprList xs ++ ("]")
  | .jobj fs => ("\x7b") ++ pyReprFields fs ++ ("\x7d")

def pyReprList : List Jld → String
  | [] => ""
  | [x] => pyReprJ x
  | x :: y :: rest => pyReprJ x ++ (", ") ++ pyReprList (y :: rest)

def pyReprFields : List (String × Jld) → String
  | [] => ""
  | [(k, v)] => ("'") ++ k ++ ("': ") ++ pyReprJ v
  | (k, v) :: kv :: rest => ("'") ++ k ++ ("': ") ++ pyReprJ v ++ (", ") ++ pyReprFields (kv :: rest)

end

/-- Python `str` of a JSON value (`norm_price(str(p), regex)`): like `repr`
except that a top-level string prints without quotes. -/
def pyStrJ : Jld → String
  | .jstr s => s
  | j => pyReprJ j

/-! ## The fetched document and the extraction chain
(`extract_price`, src/watch.py lines 148-227) -/

/-- An element found by `soup.select_one`: its attribute dictionary and its
`get_text(strip=True)` text. -/
structure PageNode where
  attrs : List (String × String)
  text : String

/-- A fetched document, as seen through the parsing libraries: `selectOne`
abstracts `soup.select_one` on this document, `ldScripts` is the list of
JSON-LD script blocks (`none` for a block whose `json.loads` raises),
`pelotonSearch` abstracts `re.search` of the Peloton financing-footnote
pattern over the whitespace-collapsed text (the captured numeric group), and
`html` is the raw response text used by the regex fallbacks. -/
structure Page where
  html : String
  selectOne : String → Option PageNode
  ldScripts : List (Option Jld)
  pelotonSearch : Nat → Option String

/-- `node.get(attr)` when a real attribute is named, else
`node.get_text(strip=True)` (`attr and attr != "inner_text"`). -/
def nodeRaw (node : PageNode) (attr : String) : Option String :=
  if attr ≠ "" ∧ attr ≠ ("inner_text") then
    (node.attrs.find? (fun kv => kv.1 == attr)).map (fun kv => kv.2)
  else some node.text

/-- Strategy 1 (selector): `soup.select_one(selector) if selector else None`,
then read the attribute or text and normalize. -/
def strat1 (page : Page) (selector attr : String) : Option ℚ :=
  match (if selector ≠ "" then page.selectOne selector else none) with
  | none => none
  | some node => (nodeRaw node attr).bind norm_price

/-- Strategy 2 (JSON-LD): first script block whose parse succeeds, whose
`find_price` finds a value, and whose value normalizes to a number. -/
def strat2 : List (Option Jld) → Option ℚ
  | [] => none
  | none :: rest => strat2 rest
  | some d :: rest =>
    match findPrice d with
    | some p =>
      match norm_price (pyStrJ p) with
      | some a => some a
      | none => strat2 rest
    | none => strat2 rest

/-- Occurrence of `pat` as a contiguous run at some position of the list. -/
def subOccurs (pat : List Char) : List Char → Bool
  | [] => pat.isEmpty
  | c :: rest => pat.isPrefixOf (c :: rest) || subOccurs pat rest

/-- Python substring test `pat in hay`. -/
def containsSub (hay pat : String) : Bool := subOccurs pat.data hay.data

/-- Pattern index selected from the product hint (`ph = product_hint.lower()`):
0 = Bike+, 1 = Bike (negative lookahead on "+"), 2 = Tread, 3 = Row. -/
def pelotonPatIndex (hint : String) : Option Nat :=
  let ph := hint.toLower
  if containsSub ph ("bike+") || containsSub ph ("bike plus") then some 0
  else if containsSub ph ("bike") then some 1
  else if containsSub ph ("tread") || containsSub ph ("treadmill") then some 2
  else if containsSub ph ("row") then some 3
  else none

/-- Strategy 3 (Peloton financing footnote): only on `onepeloton.com` URLs
with a product hint; the hint picks the pattern and the captured group is
normalized. -/
def strat3 (page : Page) (url hint : String) : Option ℚ :=
  if containsSub url ("onepeloton.com") && !hint.isEmpty then
    match pelotonPatIndex hint with
    | some idx => (page.pelotonSearch idx).bind norm_price
    | none => none
  else none

/-- `extract_price` (src/watch.py lines 148-227): the four strategies in
order, first success wins; all failing raises
`ValueError("Selector not found and no fallback price detected")`. -/
def extract_price (page : Page) (url selector attr hint : String) (floor : ℚ) :
    Except String ℚ :=
  match strat1 page selector attr with
  | some a => Except.ok a
  | none =>
    match strat2 page.ldScripts with
    | some a => Except.ok a
    | none =>
      match strat3 page url hint with
      | some a => Except.ok a
      | none =>
        match strat4 page.html floor with
        | some a => Except.ok a
        | none => Except.error ("Selector not found and no fallback price detected")

/-! ## Claims C1, C8, C10 -/

/-- Claim C1: whenever the rule's selector matches an element whose
attribute/text normalizes to a numeric amount, `extract_price` returns that
selector-derived amount — even when the page's JSON-LD metadata carries a
different price — because the selector strategy is tried first and its
success short-circuits the chain. -/
theorem c1_selector_precedence (page : Page) (url selector attr hint : String) (floor : ℚ)
    (node : PageNode) (a p : ℚ)
    (hsel : selector ≠ "")
    (hnode : page.selectOne selector = some node)
    (hval : (nodeRaw node attr).bind norm_price = some a)
    (_hld : strat2 page.ldScripts = some p)
    (_hne : p ≠ a) :
    extract_price page url selector attr hint floor = Except.ok a := by
  have h1 : strat1 page selector attr = some a := by
    unfold strat1
    rw [if_pos hsel, hnode]
    exact hval
  unfold extract_price
  rw [h1]

/-- Concrete page for the C1 witness: the selector element holds `$1,299.00`
while the JSON-LD block holds the different price `999`. -/
def c1page : Page where
  html := ""
  selectOne := fun s => if s = (".price") then some ⟨[], ("$1,299.00")⟩ else none
  ldScripts := [some (Jld.jobj [(("price"), Jld.jstr ("999"))])]
  pelotonSearch := fun _ => none

/-- Witness for C1: on `c1page` the selector value 1299 wins over the
JSON-LD price 999. -/
theorem c1_selector_precedence_witness :
    extract_price c1page ("https://example.com/p") (".price") ("inner_text") "" 400
      = Except.ok 1299 := by
  have hnp : norm_price ("$1,299.00") = some 1299 :=
    norm_price_split ("$1,299.00") (('1') :: ('2') :: ('9') :: ('9') :: []) (('0') :: ('0') :: [])
      1299 (by decide) (by decide) (by decide) (by decide) (by decide) (by decide)
      (by norm_num [show digitsVal ((('1') :: ('2') :: ('9') :: ('9') :: [])) = 1299 from by decide,
        show digitsVal ((('0') :: ('0') :: [])) = 0 from by decide])
  have hnp9 : norm_price ("999") = some 999 :=
    norm_price_digits ("999") (('9') :: ('9') :: ('9') :: []) 999
      (by decide) (by decide) (by decide) (by decide)
      (by norm_num [show digitsVal ((('9') :: ('9') :: ('9') :: [])) = 999 from by decide])
  have hval : (nodeRaw ⟨[], ("$1,299.00")⟩ ("inner_text")).bind norm_price = some 1299 := by
    rw [show nodeRaw ⟨[], ("$1,299.00")⟩ ("inner_text") = some ("$1,299.00") from by
      unfold nodeRaw
      rw [if_neg (by simp)]]
    exact hnp
  have hfp : findPrice (Jld.jobj [(("price"), Jld.jstr ("999"))]) = some (Jld.jstr ("999")) := by
    simp [findPrice, lookupField, jTruthy, show ("999").isEmpty = false from by decide]
  have hld : strat2 c1page.ldScripts = some 999 := by
    show strat2 (some (Jld.jobj [(("price"), Jld.jstr ("999"))]) :: []) = some 999
    simp only [strat2, hfp]
    rw [show pyStrJ (Jld.jstr ("999")) = ("999") from rfl]
    rw [hnp9]
  exact c1_selector_precedence c1page ("https://example.com/p") (".price") ("inner_text") "" 400
    ⟨[], ("$1,299.00")⟩ 1299 999 (by decide) rfl hval hld (by norm_num)

theorem dollarTokens_two_le (l : List Char) : ∀ t ∈ dollarTokens l, 2 ≤ t.length := by
  induction l using dollarTokens.induct with
  | case1 => intro t ht; rw [dollarTokens.eq_def] at ht; simp at ht
  | case2 => intro t ht; rw [dollarTokens.eq_def] at ht; simp at ht
  | case3 d rest2 hd htk ih =>
    intro t ht
    rw [dollarTokens] at ht
    simp only [if_pos rfl, if_pos hd, if_pos htk] at ht
    exact ih t ht
  | case4 d rest2 hd htk ih =>
    intro t ht
    rw [dollarTokens] at ht
    simp only [if_pos rfl, if_pos hd, if_neg htk] at ht
    rcases List.mem_cons.mp ht with h | h
    · subst h
      have hne : rest2.takeWhile isPriceChar ≠ [] := by
        intro habs
        exact htk (by simp [habs])
      cases hu : rest2.takeWhile isPriceChar with
      | nil => exact absurd hu hne
      | cons u us => simp [hu]
    · exact ih t h
  | case5 d rest2 hd ih =>
    intro t ht
    rw [dollarTokens] at ht
    simp only [if_pos rfl, if_neg hd] at ht
    exact ih t ht
  | case6 d rest2 hd ih =>
    intro t ht
    rw [dollarTokens.eq_def] at ht
    simp only [if_neg hd] at ht
    exact ih t ht

/-- Claim C10: the dollar-token scan `re.findall(r"\$([0-9][\d,\.]+)", html)`
never yields a single-character token — the pattern demands a digit plus at
least one more digit/comma/period — so `$5` followed by a space or by the end
of the text is not collected at all (not merely filtered by the floor). -/
theorem c10_single_digit_excluded :
    (∀ (s : String) (t : List Char), t ∈ dollarTokens s.data → 2 ≤ t.length)
    ∧ dollarTokens ("$5 shipping").data = []
    ∧ dollarTokens ("$5").data = [] := by
  refine ⟨fun s t ht => dollarTokens_two_le s.data t ht,
    by simp [dollarTokens, isPriceChar], by simp [dollarTokens, isPriceChar]⟩

/-- Witness for C10: the token collected from `"$999 "` has length at least
two. -/
theorem c10_single_digit_excluded_witness :
    2 ≤ (('9') :: ('9') :: ('9') :: []).length :=
  c10_single_digit_excluded.1 ("$999 ") (('9') :: ('9') :: ('9') :: [])
    (by rw [show dollarTokens ("$999 ").data = ((('9') :: ('9') :: ('9') :: []) :: []) from by
          simp [dollarTokens, isPriceChar]]
        exact List.mem_singleton.mpr rfl)

/-- Claim C8: when strategies 1-3 fail, `extract_price` collects the dollar
tokens of the page, normalizes them, and returns the maximum among the values
at or above the floor, or the overall maximum when none reaches the floor;
when no dollar amount is found at all it fails with the `ValueError` message. -/
theorem c8_heuristic_fallback (page : Page) (url selector attr hint : String) (floor : ℚ)
    (h1 : strat1 page selector attr = none)
    (h2 : strat2 page.ldScripts = none)
    (h3 : strat3 page url hint = none) :
    (∀ a as, heuristicAmounts page.html = a :: as →
      ∃ m, extract_price page url selector attr hint floor = Except.ok m
        ∧ m ∈ a :: as
        ∧ ((a :: as).filter (fun x => decide (floor ≤ x)) ≠ [] →
            m ∈ (a :: as).filter (fun x => decide (floor ≤ x))
            ∧ ∀ x ∈ (a :: as).filter (fun x => decide (floor ≤ x)), x ≤ m)
        ∧ ((a :: as).filter (fun x => decide (floor ≤ x)) = [] → ∀ x ∈ a :: as, x ≤ m))
    ∧ (heuristicAmounts page.html = [] →
        extract_price page url selector attr hint floor
          = Except.error ("Selector not found and no fallback price detected")) := by
  constructor
  · intro a as hamts
    have hch : extract_price page url selector attr hint floor =
        match strat4 page.html floor with
        | some a => Except.ok a
        | none => Except.error ("Selector not found and no fallback price detected") := by
      unfold extract_price
      rw [h1, h2, h3]
    cases hflt : (a :: as).filter (fun x => decide (floor ≤ x)) with
    | nil =>
      refine ⟨maxQ a as, ?_, ?_, ?_, ?_⟩
      · have hs4 : strat4 page.html floor = some (maxQ a as) := by
          simp only [strat4, hamts, hflt]
        rw [hch, hs4]
      · rcases maxQ_mem a as with h | h
        · rw [h]; exact List.mem_cons_self a as
        · exact List.mem_cons_of_mem a h
      · intro hne
        exact absurd rfl hne
      · intro _ x hx
        rcases List.mem_cons.mp hx with h | h
        · rw [h]; exact le_maxQ_self a as
        · exact le_maxQ_of_mem a h
    | cons c cs =>
      refine ⟨maxQ c cs, ?_, ?_, ?_, ?_⟩
      · have hs4 : strat4 page.html floor = some (maxQ c cs) := by
          simp only [strat4, hamts, hflt]
        rw [hch, hs4]
      · have hmem : maxQ c cs ∈ c :: cs := by
          rcases maxQ_mem c cs with h | h
          · rw [h]; exact List.mem_cons_self c cs
          · exact List.mem_cons_of_mem c h
        exact List.mem_of_mem_filter (show maxQ c cs
          ∈ (a :: as).filter (fun x => decide (floor ≤ x)) by rw [hflt]; exact hmem)
      · intro _
        constructor
        · rcases maxQ_mem c cs with h | h
          · rw [h]; exact List.mem_cons_self c cs
          · exact List.mem_cons_of_mem c h
        · intro x hx
          rcases List.mem_cons.mp hx with h | h
          · rw [h]; exact le_maxQ_self c cs
          · exact le_maxQ_of_mem c h
      · intro habs
        exact (List.cons_ne_nil c cs habs).elim
  · intro hamts
    have hs4 : strat4 page.html floor = none := by
      simp only [strat4, hamts]
    unfold extract_price
    rw [h1, h2, h3, hs4]

/-- Concrete page for the C8 witness: strategies 1-3 all fail; the text
contains the dollar amounts `$5` (not even collected) and `$999`. -/
def c8page : Page where
  html := "Shipping is $5 today. Price: $999 now."
  selectOne := fun _ => none
  ldScripts := []
  pelotonSearch := fun _ => none

/-- Witness for C8: with floor 400, the page holding `$5 shipping` and
`$999 price` yields 999. -/
theorem c8_heuristic_fallback_witness :
    extract_price c8page ("https://shop.example/p") (".price") ("inner_text") "" 400
      = Except.ok 999 := by
  have hnp9 : norm_price (String.mk (('9') :: ('9') :: ('9') :: [])) = some 999 :=
    norm_price_digits _ (('9') :: ('9') :: ('9') :: []) 999
      (by decide) (by decide) (by decide) (by decide)
      (by norm_num [show digitsVal ((('9') :: ('9') :: ('9') :: [])) = 999 from by decide])
  have htok : dollarTokens ("Shipping is $5 today. Price: $999 now.").data
      = ((('9') :: ('9') :: ('9') :: []) :: []) := by
    simp [dollarTokens, isPriceChar]
  have hamts : heuristicAmounts c8page.html = (999 : ℚ) :: [] := by
    show heuristicAmounts ("Shipping is $5 today. Price: $999 now.") = (999 : ℚ) :: []
    unfold heuristicAmounts
    rw [htok]
    simp [List.filterMap, hnp9]
  obtain ⟨m, hm, hmem, -, -⟩ :=
    (c8_heuristic_fallback c8page ("https://shop.example/p") (".price") ("inner_text") "" 400
      rfl rfl (by decide)).1 999 [] hamts
  have hm999 : m = 999 := by simpa using hmem
  rw [hm999] at hm
  exact hm

/-! ## Change detector and history store (`main`, src/watch.py lines 252-318)

The per-rule work of `main` is embedded as a pure step: each rule's row data
and the outcome of its `extract_price` call (the raised exception's message
when it fails) form a `RuleRun`; the history dictionary is a map from URL key
to the list of stored observations; timestamps are rationals (the code stores
`datetime.now(timezone.utc)`, appended at the end of the list).  Only rules
producing an `INIT`/`CHANGE`/`ERROR` digest line yield an `Event`; `NoChange`
and minor changes only print. -/

/-- One stored observation (an entry of `history.json`). -/
structure Obs where
  ts : ℚ
  competitor : String
  product_name : String
  amount : ℚ
  currency : String
deriving DecidableEq

/-- The history dictionary: URL key to stored observations (`history.get(key)`
defaulting to the empty list). -/
def History : Type := String → List Obs

/-- One rule row together with the outcome of its fetch-and-extract call:
`Except.error msg` when `extract_price` raised with message `msg`. -/
structure RuleRun where
  competitor : String
  product_name : String
  url : String
  selector : String
  currency : String
  result : Except String ℚ
  ts : ℚ

/-- A digest event kind: `INIT`, `CHANGE` (with previous amount, new amount
and percent change) or `ERROR` (with the exception message). -/
inductive EventKind where
  | init : ℚ → EventKind
  | change : ℚ → ℚ → ℚ → EventKind
  | error : String → EventKind
deriving DecidableEq

/-- A digest event, recorded under the rule's competitor. -/
structure Event where
  competitor : String
  product_name : String
  url : String
  kind : EventKind
deriving DecidableEq

/-- `history.get(key, [{}])[-1].get("amount") if history.get(key) else None`:
the amount of the last stored observation, when one exists. -/
def prevAmount (h : History) (key : String) : Option ℚ :=
  ((h key).getLast?).map (fun o => o.amount)

/-- One iteration of the rule loop of `main` (src/watch.py lines 265-316):
rows missing URL or selector are skipped; an extraction failure yields an
error event and leaves the history untouched; a successful extraction appends
one observation and classifies the change against the previous amount
(`pct = |new - prev| / prev * 100`, `100` when `prev` is falsy; event emitted
iff `pct >= threshold`). -/
def processRule (threshold : ℚ) (h : History) (r : RuleRun) : History × Option Event :=
  if r.url = "" ∨ r.selector = "" then (h, none)
  else
    match r.result with
    | Except.error msg => (h, some ⟨r.competitor, r.product_name, r.url, EventKind.error msg⟩)
    | Except.ok amount =>
      let prev := prevAmount h r.url
      let entry : Obs := ⟨r.ts, r.competitor, r.product_name, amount, r.currency⟩
      let h2 : History := fun u => if u = r.url then h r.url ++ [entry] else h u
      match prev with
      | none => (h2, some ⟨r.competitor, r.product_name, r.url, EventKind.init amount⟩)
      | some p =>
        if amount ≠ p then
          let pct := if p ≠ 0 then |amount - p| / p * 100 else 100
          if pct ≥ threshold then
            (h2, some ⟨r.competitor, r.product_name, r.url, EventKind.change p amount pct⟩)
          else (h2, none)
        else (h2, none)

/-- The whole rule loop: sequential left-to-right processing, threading the
history and collecting the emitted events in order. -/
def runAll (threshold : ℚ) : History → List RuleRun → History × List Event
  | h, [] => (h, [])
  | h, r :: rest =>
    let step := processRule threshold h r
    let next := runAll threshold step.1 rest
    (next.1, match step.2 with
      | some e => e :: next.2
      | none => next.2)

theorem processRule_fst_append (threshold : ℚ) (h : History) (r : RuleRun) (u : String) :
    ∃ tail, (processRule threshold h r).1 u = h u ++ tail := by
  by_cases hskip : r.url = "" ∨ r.selector = ""
  · exact ⟨[], by simp [processRule, hskip]⟩
  · cases hres : r.result with
    | error msg => exact ⟨[], by simp [processRule, hskip, hres]⟩
    | ok amount =>
      by_cases hu : u = r.url
      · subst hu
        refine ⟨[⟨r.ts, r.competitor, r.product_name, amount, r.currency⟩], ?_⟩
        simp only [processRule, hskip, hres, if_false]
        repeat' split
        all_goals simp
      · refine ⟨[], ?_⟩
        simp only [processRule, hskip, hres, if_false]
        repeat' split
        all_goals simp [hu]

theorem runAll_fst_append (threshold : ℚ) (h : History) (rs : List RuleRun) (u : String) :
    ∃ tail, (runAll threshold h rs).1 u = h u ++ tail := by
  induction rs generalizing h with
  | nil => exact ⟨[], by simp [runAll]⟩
  | cons r rest ih =>
    obtain ⟨t1, ht1⟩ := processRule_fst_append threshold h r u
    obtain ⟨t2, ht2⟩ := ih (processRule threshold h r).1
    refine ⟨t1 ++ t2, ?_⟩
    rw [show (runAll threshold h (r :: rest)).1
      = (runAll threshold (processRule threshold h r).1 rest).1 from rfl]
    rw [ht2, ht1, List.append_assoc]

theorem processRule_ok_changed (threshold : ℚ) (h : History) (r : RuleRun) (p a : ℚ)
    (hurl : r.url ≠ "") (hsel : r.selector ≠ "") (hres : r.result = Except.ok a)
    (hprev : prevAmount h r.url = some p) (hne : a ≠ p) :
    processRule threshold h r
      = (fun u => if u = r.url
            then h r.url ++ [⟨r.ts, r.competitor, r.product_name, a, r.currency⟩] else h u,
         if (if p ≠ 0 then |a - p| / p * 100 else 100) ≥ threshold
         then some ⟨r.competitor, r.product_name, r.url,
                EventKind.change p a (if p ≠ 0 then |a - p| / p * 100 else 100)⟩
         else none) := by
  unfold processRule
  rw [if_neg (show ¬(r.url = "" ∨ r.selector = "") by simp [hurl, hsel])]
  rw [hres]
  simp only []
  rw [hprev]
  simp only []
  rw [if_pos hne]
  repeat' split
  all_goals rfl

theorem processRule_ok_fst (threshold : ℚ) (h : History) (r : RuleRun) (a : ℚ)
    (hurl : r.url ≠ "") (hsel : r.selector ≠ "") (hres : r.result = Except.ok a) :
    (processRule threshold h r).1
      = fun u => if u = r.url
          then h r.url ++ [⟨r.ts, r.competitor, r.product_name, a, r.currency⟩] else h u := by
  unfold processRule
  rw [if_neg (show ¬(r.url = "" ∨ r.selector = "") by simp [hurl, hsel])]
  rw [hres]
  simp only []
  repeat' split
  all_goals rfl

theorem processRule_error_eq (threshold : ℚ) (h : History) (r : RuleRun) (msg : String)
    (hurl : r.url ≠ "") (hsel : r.selector ≠ "") (hres : r.result = Except.error msg) :
    processRule threshold h r
      = (h, some ⟨r.competitor, r.product_name, r.url, EventKind.error msg⟩) := by
  unfold processRule
  rw [if_neg (show ¬(r.url = "" ∨ r.selector = "") by simp [hurl, hsel])]
  rw [hres]

/-- Claim C3: with a prior stored amount `p` differing from the new amount
`a`, the detector computes `pct = |a - p| / p * 100`, falling back to
`pct = 100` when `p = 0` (no division failure); it emits a Change event
carrying from/to/pct exactly when `pct ≥ threshold` and emits nothing
otherwise; with threshold 0 and a non-negative prior, every change emits. -/
theorem c3_change_detector (threshold : ℚ) (h : History) (r : RuleRun) (p a : ℚ)
    (hurl : r.url ≠ "") (hsel : r.selector ≠ "") (hres : r.result = Except.ok a)
    (hprev : prevAmount h r.url = some p) (hne : a ≠ p) :
    ((if p ≠ 0 then |a - p| / p * 100 else 100) ≥ threshold →
      (processRule threshold h r).2
        = some ⟨r.competitor, r.product_name, r.url,
            EventKind.change p a (if p ≠ 0 then |a - p| / p * 100 else 100)⟩)
    ∧ ((if p ≠ 0 then |a - p| / p * 100 else 100) < threshold →
      (processRule threshold h r).2 = none)
    ∧ (p = 0 → (if p ≠ 0 then |a - p| / p * 100 else 100) = 100)
    ∧ (0 ≤ p → threshold = 0 →
      (processRule threshold h r).2
        = some ⟨r.competitor, r.product_name, r.url,
            EventKind.change p a (if p ≠ 0 then |a - p| / p * 100 else 100)⟩) := by
  have hpr := processRule_ok_changed threshold h r p a hurl hsel hres hprev hne
  refine ⟨?_, ?_, ?_, ?_⟩
  · intro hpct
    rw [hpr]
    simp only []
    rw [if_pos hpct]
  · intro hpct
    rw [hpr]
    simp only []
    rw [if_neg (not_le.mpr hpct)]
  · intro hp0
    subst hp0
    simp
  · intro hp0 ht0
    subst ht0
    have hpct : (if p ≠ 0 then |a - p| / p * 100 else 100) ≥ 0 := by
      rcases eq_or_lt_of_le hp0 with h0 | h0
      · rw [if_neg (by rw [← h0]; simp)]
        norm_num
      · rw [if_pos (by exact ne_of_gt h0)]
        positivity
    rw [hpr]
    simp only []
    rw [if_pos hpct]

/-- Prior history with last amount 1000 for the key `"u"`. -/
def histA : History := fun u => if u = ("u") then [⟨0, ("c"), ("p"), 1000, ("USD")⟩] else []

/-- A rule run for key `"u"` whose extraction produced 950. -/
def ruleA : RuleRun := ⟨("c"), ("p"), ("u"), (".sel"), ("USD"), Except.ok 950, 1⟩

/-- Prior history with last amount 0 for the key `"u"`. -/
def histB : History := fun u => if u = ("u") then [⟨0, ("c"), ("p"), 0, ("USD")⟩] else []

/-- A rule run for key `"u"` whose extraction produced 10. -/
def ruleB : RuleRun := ⟨("c"), ("p"), ("u"), (".sel"), ("USD"), Except.ok 10, 1⟩

/-- Witness for C3: prev 1000, new 950, threshold 0 emits Change with
pct = 5; prev 0, new 10 emits Change with pct = 100 (no division failure). -/
theorem c3_change_detector_witness :
    (processRule 0 histA ruleA).2
      = some ⟨("c"), ("p"), ("u"), EventKind.change 1000 950 5⟩
    ∧ (processRule 0 histB ruleB).2
      = some ⟨("c"), ("p"), ("u"), EventKind.change 0 10 100⟩ := by
  constructor
  · have h4 := (c3_change_detector 0 histA ruleA 1000 950 (by decide) (by decide) rfl
      (by decide) (by norm_num)).2.2.2 (by norm_num) rfl
    rw [h4, show |(950 : ℚ) - 1000| = 50 from by
      rw [abs_of_nonpos (by norm_num : (950 : ℚ) - 1000 ≤ 0)]; norm_num]
    norm_num
    exact ⟨rfl, rfl, rfl⟩
  · have h4 := (c3_change_detector 0 histB ruleB 0 10 (by decide) (by decide) rfl
      (by decide) (by norm_num)).2.2.2 (by norm_num) rfl
    rw [h4]
    norm_num
    exact ⟨rfl, rfl, rfl⟩

/-- Claim C4: a successful extraction on a non-skipped rule appends exactly
one observation at the end of that URL's history (leaving every other URL
untouched and every existing entry unchanged, and preserving sorted
timestamps when the new stamp is not older); a failed extraction leaves the
history map entirely unchanged; over a whole run the prior list of any URL is
a prefix of its final list — so re-running with an unchanged amount appends
exactly one observation beyond the prior run's last entry. -/
theorem c4_append_invariant (threshold : ℚ) :
    (∀ (h : History) (r : RuleRun) (a : ℚ), r.url ≠ "" → r.selector ≠ "" →
      r.result = Except.ok a →
      (processRule threshold h r).1 r.url
          = h r.url ++ [⟨r.ts, r.competitor, r.product_name, a, r.currency⟩]
        ∧ ((processRule threshold h r).1 r.url).length = (h r.url).length + 1
        ∧ (∀ u, u ≠ r.url → (processRule threshold h r).1 u = h u)
        ∧ ((∀ o ∈ h r.url, o.ts ≤ r.ts) →
            List.Sorted (fun x y : ℚ => x ≤ y) ((h r.url).map Obs.ts) →
            List.Sorted (fun x y : ℚ => x ≤ y)
              (((processRule threshold h r).1 r.url).map Obs.ts)))
    ∧ (∀ (h : History) (r : RuleRun) (msg : String), r.result = Except.error msg →
        (processRule threshold h r).1 = h)
    ∧ (∀ (h : History) (rs : List RuleRun) (u : String),
        ∃ tail, (runAll threshold h rs).1 u = h u ++ tail) := by
  refine ⟨?_, ?_, ?_⟩
  · intro h r a hurl hsel hres
    have hfst := processRule_ok_fst threshold h r a hurl hsel hres
    have happ : (processRule threshold h r).1 r.url
        = h r.url ++ [⟨r.ts, r.competitor, r.product_name, a, r.currency⟩] := by
      rw [hfst]
      simp
    refine ⟨happ, by rw [happ]; simp, ?_, ?_⟩
    · intro u hu
      rw [hfst]
      simp [hu]
    · intro hbound hsort
      rw [happ, List.map_append]
      rw [List.Sorted, List.pairwise_append]
      refine ⟨hsort, by simp, ?_⟩
      intro x hx y hy
      simp only [List.map_cons, List.map_nil, List.mem_singleton] at hy
      obtain ⟨o, ho, rfl⟩ := List.mem_map.mp hx
      rw [hy]
      exact hbound o ho
  · intro h r msg hres
    unfold processRule
    by_cases hskip : r.url = "" ∨ r.selector = ""
    · rw [if_pos hskip]
    · rw [if_neg hskip, hres]
  · intro h rs u
    exact runAll_fst_append threshold h rs u

/-- Witness for C4: processing `ruleA` (extracted amount 950) against the
one-entry history `histA` appends exactly that observation. -/
theorem c4_append_invariant_witness :
    (processRule 0 histA ruleA).1 ("u")
      = histA ("u") ++ [⟨1, ("c"), ("p"), 950, ("USD")⟩] :=
  ((c4_append_invariant 0).1 histA ruleA 950 (by decide) (by decide) rfl).1

/-- A rule run for key `"u"` whose fetch/extraction raised with message
`"boom"`. -/
def ruleErr : RuleRun := ⟨("c"), ("p"), ("u"), (".sel"), ("USD"), Except.error ("boom"), 1⟩

/-- Claim C5: a fetch/extraction failure is confined to its rule — the rule
yields an Error event naming the reason under its competitor, no observation
is appended (the URL's stored list, and hence its last entry, is unchanged),
and the run continues with the remaining rules exactly as if the failing rule
were processed alone first. -/
theorem c5_error_isolation (threshold : ℚ) (h : History) (r : RuleRun) (msg : String)
    (rest : List RuleRun)
    (hurl : r.url ≠ "") (hsel : r.selector ≠ "") (hres : r.result = Except.error msg) :
    processRule threshold h r
        = (h, some ⟨r.competitor, r.product_name, r.url, EventKind.error msg⟩)
    ∧ runAll threshold h (r :: rest)
        = ((runAll threshold h rest).1,
            ⟨r.competitor, r.product_name, r.url, EventKind.error msg⟩
              :: (runAll threshold h rest).2)
    ∧ (processRule threshold h r).1 r.url = h r.url := by
  have hpr := processRule_error_eq threshold h r msg hurl hsel hres
  refine ⟨hpr, ?_, by rw [hpr]⟩
  show ((runAll threshold (processRule threshold h r).1 rest).1,
      match (processRule threshold h r).2 with
      | some e => e :: (runAll threshold (processRule threshold h r).1 rest).2
      | none => (runAll threshold (processRule threshold h r).1 rest).2) = _
  rw [hpr]

/-- Witness for C5: the failing rule `ruleErr` leaves `histA` unchanged and
yields the Error event naming the reason. -/
theorem c5_error_isolation_witness :
    processRule 0 histA ruleErr
      = (histA, some ⟨("c"), ("p"), ("u"), EventKind.error ("boom")⟩) :=
  (c5_error_isolation 0 histA ruleErr ("boom") [] (by decide) (by decide) rfl).1

/-! ## Proxy gate (`maybe_proxy`, src/watch.py lines 94-98) -/

/-- The remainder after the first `"://"` marker, when present. -/
def afterSchemeMarker : List Char → Option (List Char)
  | (':') :: ('/') :: ('/') :: rest => some rest
  | _ :: rest => afterSchemeMarker rest
  | [] => none

/-- Model of `urllib.parse.urlsplit(url).netloc` for absolute URLs: the part
after the first `"://"` up to the first `/`, `?` or `#` (empty when the URL
has no scheme separator). -/
def netloc (u : String) : String :=
  match afterSchemeMarker u.data with
  | some rest => String.mk (rest.takeWhile (fun c => c != ('/') && c != ('?') && c != ('#')))
  | none => ""

/-- Characters that `urllib.parse.quote` leaves unescaped with `safe=''`:
letters, digits, `_`, `.`, `-`, `~`. -/
def quoteSafeChar (c : Char) : Bool :=
  c.isAlpha || c.isDigit || c == ('_') || c == ('.') || c == ('-') || c == ('~')

/-- Upper-case hexadecimal digit. -/
def hexDigit (n : Nat) : Char :=
  if n < 10 then Char.ofNat (48 + n) else Char.ofNat (55 + n)

/-- Model of `urllib.parse.quote(url, safe='')` on ASCII strings:
percent-encode every character outside the safe set. -/
def pyQuote (s : String) : String :=
  String.mk (s.data.foldr (fun c acc =>
    if quoteSafeChar c then c :: acc
    else ('%') :: hexDigit (c.toNat / 16) :: hexDigit (c.toNat % 16) :: acc) [])

/-- `maybe_proxy` (src/watch.py lines 94-98): rewrite through the ScraperAPI
endpoint exactly when a key is configured and the *string* `"hydrow.com"`
occurs anywhere in the URL (`"hydrow.com" in url`). -/
def maybe_proxy (key url : String) : String :=
  if key ≠ "" ∧ containsSub url ("hydrow.com") = true then
    ("https://api.scraperapi.com/?api_key=") ++ key ++ ("&url=") ++ pyQuote url
  else url

/-- Counterexample for C7: with a key configured, the URL
`https://example.com/a?ref=hydrow.com` has target domain `example.com`
(not the allow-listed `hydrow.com`), yet `maybe_proxy` rewrites it through
the proxy — the gate tests substring containment, not the target domain. -/
theorem c7_counterexample :
    netloc ("https://example.com/a?ref=hydrow.com") = ("example.com")
    ∧ netloc ("https://example.com/a?ref=hydrow.com") ≠ ("hydrow.com")
    ∧ maybe_proxy ("KEY") ("https://example.com/a?ref=hydrow.com")
        ≠ ("https://example.com/a?ref=hydrow.com") := by
  refine ⟨by decide, by decide, ?_⟩
  decide

/-- Claim C7 (amended): the rewrite happens iff a key is configured and the
URL *contains the substring* `"hydrow.com"` anywhere (not: iff its target
domain is `hydrow.com`); with no key configured no URL is rewritten, and a
URL not containing the substring is never rewritten. -/
theorem c7_proxy_gating (key url : String) :
    (key = "" → maybe_proxy key url = url)
    ∧ (containsSub url ("hydrow.com") = false → maybe_proxy key url = url)
    ∧ (key ≠ "" → containsSub url ("hydrow.com") = true →
        maybe_proxy key url
          = ("https://api.scraperapi.com/?api_key=") ++ key ++ ("&url=") ++ pyQuote url) := by
  refine ⟨?_, ?_, ?_⟩
  · intro hk
    unfold maybe_proxy
    rw [if_neg (by simp [hk])]
  · intro hc
    unfold maybe_proxy
    rw [if_neg (by simp [hc])]
  · intro hk hc
    unfold maybe_proxy
    rw [if_pos ⟨hk, hc⟩]

/-- Witness for C7 (amended): with a key and a genuine hydrow.com URL the
request is rewritten through the proxy endpoint. -/
theorem c7_proxy_gating_witness :
    maybe_proxy ("KEY") ("https://hydrow.com/rower")
      = ("https://api.scraperapi.com/?api_key=") ++ ("KEY") ++ ("&url=")
          ++ pyQuote ("https://hydrow.com/rower") :=
  (c7_proxy_gating ("KEY") ("https://hydrow.com/rower")).2.2 (by decide) (by decide)

/-! ## Rate-limited fetcher
(`_throttle` src/watch.py lines 82-90, `http_get_with_backoff` lines 101-121)

Time is modelled as an exact rational clock that advances by exactly the
slept amount (and by the request's duration); `random.uniform` draws and the
per-attempt HTTP status codes are inputs.  `_LAST_FETCH.get(dom, 0)` is a
total map defaulting to 0. -/

/-- `MIN_DOMAIN_GAP` (src/watch.py line 52). -/
def MIN_DOMAIN_GAP : ℚ := 3

/-- `MAX_TRIES` (src/watch.py line 53). -/
def MAX_TRIES : Nat := 3

/-- Clock and per-domain last-fetch map (`_LAST_FETCH`). -/
structure NetState where
  now : ℚ
  lastFetch : String → ℚ

/-- `_throttle(url)` for domain `dom` with jitter draw `j ∈ [-5, 5]`:
`wait = MIN_DOMAIN_GAP - (now - last) + j`; sleep `wait` only when positive;
then record the post-sleep time for the domain. -/
def throttle (dom : String) (j : ℚ) (s : NetState) : NetState :=
  let gap := s.now - s.lastFetch dom
  let wait := MIN_DOMAIN_GAP - gap + j
  let now1 := if wait > 0 then s.now + wait else s.now
  { now := now1, lastFetch := fun d => if d = dom then now1 else s.lastFetch d }

/-- Environment of one `http_get_with_backoff` call: per-attempt status
codes, request durations, throttle jitter draws (`random.uniform(-5, 5)`)
and backoff jitter draws (`random.uniform(0, 1.5)` on 429,
`random.uniform(0, 1.0)` on 5xx). -/
structure FetchEnv where
  status : Nat → Nat
  reqDur : Nat → ℚ
  throttleJitter : Nat → ℚ
  backoffJitter : Nat → ℚ

/-- Outcome of `http_get_with_backoff`: a returned response, an exception
from `raise_for_status`, or the final `ValueError` naming the URL and
`MAX_TRIES` after all retries were consumed. -/
inductive FetchResult where
  | ok : Nat → Nat → FetchResult
  | httpError : Nat → Nat → FetchResult
  | exhausted : String → Nat → FetchResult
deriving DecidableEq

/-- Log of one attempt: the time right after `_throttle` returned (when the
GET is issued), the status received, and the value of the `delay` variable on
entering the attempt. -/
structure AttemptLog where
  start : ℚ
  status : Nat
  baseDelay : ℚ

/-- Result, per-attempt logs and final state of a fetch call. -/
structure FetchTrace where
  result : FetchResult
  logs : List AttemptLog
  final : NetState

/-- The `for attempt in range(1, MAX_TRIES + 1)` loop of
`http_get_with_backoff`: throttle on the original URL's domain, issue the GET
(to `maybe_proxy(url)`; the wire target does not affect the modelled status,
which `env.status` supplies per attempt), then retry with doubled, 30-capped
delay on 429 or 5xx, raise immediately on other 4xx
(`resp.raise_for_status()` raises exactly for 400-599), and return the
response otherwise; falling off the loop raises the rate-limit `ValueError`
naming the URL and `MAX_TRIES`. -/
def httpLoop (env : FetchEnv) (url : String) : Nat → Nat → ℚ → NetState → FetchTrace
  | 0, _, _, s => ⟨FetchResult.exhausted url MAX_TRIES, [], s⟩
  | rem + 1, i, delay, s =>
    let s1 := throttle (netloc url) (env.throttleJitter i) s
    let start := s1.now
    let s2 : NetState := ⟨s1.now + env.reqDur i, s1.lastFetch⟩
    let st := env.status i
    if st = 429 then
      let s3 : NetState := ⟨s2.now + (delay + env.backoffJitter i), s2.lastFetch⟩
      let next := httpLoop env url rem (i + 1) (min (delay * 2) 30) s3
      ⟨next.result, ⟨start, st, delay⟩ :: next.logs, next.final⟩
    else if 500 ≤ st ∧ st < 600 then
      let s3 : NetState := ⟨s2.now + (delay + env.backoffJitter i), s2.lastFetch⟩
      let next := httpLoop env url rem (i + 1) (min (delay * 2) 30) s3
      ⟨next.result, ⟨start, st, delay⟩ :: next.logs, next.final⟩
    else if 400 ≤ st ∧ st < 600 then
      ⟨FetchResult.httpError st i, [⟨start, st, delay⟩], s2⟩
    else
      ⟨FetchResult.ok st i, [⟨start, st, delay⟩], s2⟩

/-- `http_get_with_backoff(url)`: attempts start at 1 with `delay = 2.0`. -/
def http_get_with_backoff (env : FetchEnv) (url : String) (s : NetState) : FetchTrace :=
  httpLoop env url MAX_TRIES 1 2 s

/-- A status code the loop retries: 429 or any 5xx. -/
def retryable (st : Nat) : Prop := st = 429 ∨ (500 ≤ st ∧ st < 600)

theorem httpLoop_retry_step (env : FetchEnv) (url : String) (rem i : Nat) (d : ℚ)
    (s : NetState) (hret : retryable (env.status i)) :
    ∃ s3, httpLoop env url (rem + 1) i d s
      = ⟨(httpLoop env url rem (i + 1) (min (d * 2) 30) s3).result,
         ⟨(throttle (netloc url) (env.throttleJitter i) s).now, env.status i, d⟩
           :: (httpLoop env url rem (i + 1) (min (d * 2) 30) s3).logs,
         (httpLoop env url rem (i + 1) (min (d * 2) 30) s3).final⟩ := by
  rcases hret with h429 | h5xx
  · refine ⟨⟨(throttle (netloc url) (env.throttleJitter i) s).now + env.reqDur i
        + (d + env.backoffJitter i),
      (throttle (netloc url) (env.throttleJitter i) s).lastFetch⟩, ?_⟩
    simp only [httpLoop, h429, eq_self_iff_true, if_true]
  · have hne : env.status i ≠ 429 := by omega
    refine ⟨⟨(throttle (netloc url) (env.throttleJitter i) s).now + env.reqDur i
        + (d + env.backoffJitter i),
      (throttle (netloc url) (env.throttleJitter i) s).lastFetch⟩, ?_⟩
    simp only [httpLoop, if_neg hne, if_pos h5xx]

/-- Counterexample environment for C6: every attempt answers HTTP 301. -/
def env301 : FetchEnv := ⟨fun _ => 301, fun _ => 0, fun _ => 0, fun _ => 0⟩

/-- Initial fetch state: clock 0, no domain fetched yet (`_LAST_FETCH` empty,
`get(dom, 0)` defaulting to 0). -/
def net0 : NetState := ⟨0, fun _ => 0⟩

/-- Counterexample for C6: 301 is not a 2xx status, yet
`http_get_with_backoff` returns the response as a success on the first
attempt instead of failing — `raise_for_status` only raises for 400-599, so
"any other non-2xx status fails immediately" is false for 3xx. -/
theorem c6_counterexample :
    (http_get_with_backoff env301 ("https://example.com/x") net0).result
      = FetchResult.ok 301 1
    ∧ ¬(200 ≤ 301 ∧ 301 < 300) := by
  constructor
  · simp only [http_get_with_backoff, MAX_TRIES, httpLoop]
    norm_num [env301]
  · omega

/-- Claim C6 (amended): HTTP 429 and 5xx trigger retries with base delays 2,
then `min(2*2, 30) = 4`, then 8 — exponential backoff starting at 2s,
doubling per attempt, capped at 30s — for at most `MAX_TRIES = 3` attempts
in total, and exhausting all three raises the rate-limit error naming the URL
and the attempt count; a 4xx status other than 429 fails immediately on its
first attempt with no retry; however a non-2xx status below 400 (e.g. 3xx) is
returned as a success rather than failing. -/
theorem c6_retry_backoff (env : FetchEnv) (url : String) (s : NetState) :
    ((retryable (env.status 1) ∧ retryable (env.status 2) ∧ retryable (env.status 3)) →
      (http_get_with_backoff env url s).result = FetchResult.exhausted url 3
      ∧ (http_get_with_backoff env url s).logs.map AttemptLog.baseDelay = [2, 4, 8]
      ∧ (http_get_with_backoff env url s).logs.length = 3)
    ∧ (¬retryable (env.status 1) → 400 ≤ env.status 1 → env.status 1 < 600 →
      (http_get_with_backoff env url s).result = FetchResult.httpError (env.status 1) 1
      ∧ (http_get_with_backoff env url s).logs.length = 1)
    ∧ (env.status 1 < 400 →
      (http_get_with_backoff env url s).result = FetchResult.ok (env.status 1) 1
      ∧ (http_get_with_backoff env url s).logs.length = 1) := by
  refine ⟨?_, ?_, ?_⟩
  · intro ⟨h1, h2, h3⟩
    obtain ⟨s3, e1⟩ := httpLoop_retry_step env url 2 1 2 s h1
    obtain ⟨s4, e2⟩ := httpLoop_retry_step env url 1 2 (min (2 * 2) 30) s3 h2
    obtain ⟨s5, e3⟩ := httpLoop_retry_step env url 0 3 (min (min (2 * 2) 30 * 2) 30) s4 h3
    have hstart : http_get_with_backoff env url s = httpLoop env url (2 + 1) 1 2 s := rfl
    rw [hstart, e1, e2, e3]
    have hz : httpLoop env url 0 4 (min (min (min (2 * 2) 30 * 2) 30 * 2) 30) s5
        = ⟨FetchResult.exhausted url MAX_TRIES, [], s5⟩ := rfl
    rw [hz]
    refine ⟨rfl, ?_, rfl⟩
    simp only [List.map_cons, List.map_nil]
    norm_num [min_def]
  · intro hnr h400 h600
    have hne : env.status 1 ≠ 429 := fun h => hnr (Or.inl h)
    have h5 : ¬(500 ≤ env.status 1 ∧ env.status 1 < 600) := fun h => hnr (Or.inr h)
    have hstart : http_get_with_backoff env url s = httpLoop env url (2 + 1) 1 2 s := rfl
    rw [hstart]
    simp only [httpLoop, if_neg hne, if_neg h5, if_pos (And.intro h400 h600)]
    constructor <;> first | rfl | trivial
  · intro hlt
    have hne : env.status 1 ≠ 429 := by omega
    have h5 : ¬(500 ≤ env.status 1 ∧ env.status 1 < 600) := by omega
    have h4 : ¬(400 ≤ env.status 1 ∧ env.status 1 < 600) := by omega
    have hstart : http_get_with_backoff env url s = httpLoop env url (2 + 1) 1 2 s := rfl
    rw [hstart]
    simp only [httpLoop, if_neg hne, if_neg h5, if_neg h4]
    constructor <;> first | rfl | trivial

/-- Witness for C6 (amended): an environment answering 503 on every attempt
exhausts all three tries with base delays 2, 4, 8 and fails with the
rate-limit error naming the URL and the attempt count. -/
def env503 : FetchEnv := ⟨fun _ => 503, fun _ => 0, fun _ => 0, fun _ => 0⟩

theorem c6_retry_backoff_witness :
    (http_get_with_backoff env503 ("https://example.com/x") net0).result
      = FetchResult.exhausted ("https://example.com/x") 3
    ∧ (http_get_with_backoff env503 ("https://example.com/x") net0).logs.map
        AttemptLog.baseDelay = [2, 4, 8] := by
  have h := (c6_retry_backoff env503 ("https://example.com/x") net0).1
    ⟨Or.inr (by norm_num [env503]), Or.inr (by norm_num [env503]),
     Or.inr (by norm_num [env503])⟩
  exact ⟨h.1, h.2.1⟩

/-! ## Claim C9: throttle pacing -/

theorem throttle_now_eq (dom : String) (j : ℚ) (st : NetState) :
    (throttle dom j st).now
      = st.now + max 0 (MIN_DOMAIN_GAP - (st.now - st.lastFetch dom) + j) := by
  unfold throttle
  simp only []
  split
  case isTrue h => rw [max_eq_right (le_of_lt h)]
  case isFalse h =>
    rw [max_eq_left (le_of_not_lt h)]
    ring

theorem throttle_lastFetch_self (dom : String) (j : ℚ) (st : NetState) :
    (throttle dom j st).lastFetch dom = (throttle dom j st).now := by
  unfold throttle
  simp

theorem throttle_start_ge (dom : String) (j : ℚ) (st : NetState) :
    st.lastFetch dom + (MIN_DOMAIN_GAP + j) ≤ (throttle dom j st).now := by
  unfold throttle
  simp only []
  split
  case isTrue h => linarith
  case isFalse h =>
    have := le_of_not_lt h
    linarith

theorem httpLoop_pacing (env : FetchEnv) (url : String)
    (hj : ∀ n, -5 ≤ env.throttleJitter n) :
    ∀ (rem i : Nat) (d : ℚ) (s : NetState),
      List.Chain' (fun l1 l2 => l1.start + (MIN_DOMAIN_GAP - 5) ≤ l2.start)
        (httpLoop env url rem i d s).logs
      ∧ ((httpLoop env url rem i d s).logs = [] →
          (httpLoop env url rem i d s).final.lastFetch (netloc url)
            = s.lastFetch (netloc url))
      ∧ (∀ lg, ((httpLoop env url rem i d s).logs).getLast? = some lg →
          (httpLoop env url rem i d s).final.lastFetch (netloc url) = lg.start)
      ∧ (∀ hd, ((httpLoop env url rem i d s).logs).head? = some hd →
          s.lastFetch (netloc url) + (MIN_DOMAIN_GAP + env.throttleJitter i) ≤ hd.start) := by
  intro rem
  induction rem with
  | zero =>
    intro i d s
    refine ⟨by simp [httpLoop], by simp [httpLoop], by simp [httpLoop], by simp [httpLoop]⟩
  | succ rem ih =>
    intro i d s
    have hself : (throttle (netloc url) (env.throttleJitter i) s).lastFetch (netloc url)
        = (throttle (netloc url) (env.throttleJitter i) s).now :=
      throttle_lastFetch_self _ _ _
    simp only [httpLoop]
    split
    · -- 429: sleep and retry
      refine ⟨?_, ?_, ?_, ?_⟩
      · rw [List.chain'_cons']
        refine ⟨?_, (ih (i + 1) (min (d * 2) 30) _).1⟩
        intro b hb
        have hhead := (ih (i + 1) (min (d * 2) 30) _).2.2.2 b hb
        simp only [] at hhead ⊢
        rw [hself] at hhead
        have hjb := hj (i + 1)
        linarith
      · intro habs
        simp at habs
      · intro lg hlg
        simp only [] at hlg ⊢
        cases hnl : (httpLoop env url rem (i + 1) (min (d * 2) 30)
            ⟨(throttle (netloc url) (env.throttleJitter i) s).now + env.reqDur i
              + (d + env.backoffJitter i),
             (throttle (netloc url) (env.throttleJitter i) s).lastFetch⟩).logs with
        | nil =>
          rw [hnl] at hlg
          simp at hlg
          have hfin := (ih (i + 1) (min (d * 2) 30) _).2.1 hnl
          rw [hfin]
          simp only []
          rw [hself, ← hlg]
        | cons x xs =>
          rw [hnl] at hlg
          rw [List.getLast?_cons_cons] at hlg
          have hfin := (ih (i + 1) (min (d * 2) 30) _).2.2.1 lg (by rw [hnl]; exact hlg)
          exact hfin
      · intro hd hhd
        simp only [List.head?_cons, Option.some.injEq] at hhd
        rw [← hhd]
        exact throttle_start_ge _ _ _
    · split
      · -- 5xx: sleep and retry
        refine ⟨?_, ?_, ?_, ?_⟩
        · rw [List.chain'_cons']
          refine ⟨?_, (ih (i + 1) (min (d * 2) 30) _).1⟩
          intro b hb
          have hhead := (ih (i + 1) (min (d * 2) 30) _).2.2.2 b hb
          simp only [] at hhead ⊢
          rw [hself] at hhead
          have hjb := hj (i + 1)
          linarith
        · intro habs
          simp at habs
        · intro lg hlg
          simp only [] at hlg ⊢
          cases hnl : (httpLoop env url rem (i + 1) (min (d * 2) 30)
              ⟨(throttle (netloc url) (env.throttleJitter i) s).now + env.reqDur i
                + (d + env.backoffJitter i),
               (throttle (netloc url) (env.throttleJitter i) s).lastFetch⟩).logs with
          | nil =>
            rw [hnl] at hlg
            simp at hlg
            have hfin := (ih (i + 1) (min (d * 2) 30) _).2.1 hnl
            rw [hfin]
            simp only []
            rw [hself, ← hlg]
          | cons x xs =>
            rw [hnl] at hlg
            rw [List.getLast?_cons_cons] at hlg
            have hfin := (ih (i + 1) (min (d * 2) 30) _).2.2.1 lg (by rw [hnl]; exact hlg)
            exact hfin
        · intro hd hhd
          simp only [List.head?_cons, Option.some.injEq] at hhd
          rw [← hhd]
          exact throttle_start_ge _ _ _
      · split
        · -- other 4xx: raise_for_status
          refine ⟨List.chain'_singleton _, ?_, ?_, ?_⟩
          · intro habs
            simp at habs
          · intro lg hlg
            simp at hlg
            rw [← hlg]
            simp only []
            exact hself
          · intro hd hhd
            simp at hhd
            rw [← hhd]
            exact throttle_start_ge _ _ _
        · -- success: return the response
          refine ⟨List.chain'_singleton _, ?_, ?_, ?_⟩
          · intro habs
            simp at habs
          · intro lg hlg
            simp at hlg
            rw [← hlg]
            simp only []
            exact hself
          · intro hd hhd
            simp at hhd
            rw [← hhd]
            exact throttle_start_ge _ _ _

/-- Claim C9: before each attempt (retries included) the fetcher throttles on
the URL's domain — sleeping exactly the positive part of
`MIN_DOMAIN_GAP - elapsed + jitter` (clamped to ≥ 0) — and records the
post-sleep time as the domain's last-fetch time, after every attempt, success
or failure alike (the final map holds the last attempt's start; an attempt
happens iff it is logged); consecutive attempt start times to the domain are
never closer than `MIN_DOMAIN_GAP - 5` (minimum gap minus maximal jitter),
given jitter draws in `[-5, 5]`. -/
theorem c9_throttle_pacing (env : FetchEnv) (url : String) (rem i : Nat) (d : ℚ)
    (s : NetState) (hj : ∀ n, -5 ≤ env.throttleJitter n) :
    (∀ dom j st, (throttle dom j st).now
        = st.now + max 0 (MIN_DOMAIN_GAP - (st.now - st.lastFetch dom) + j)
      ∧ (throttle dom j st).lastFetch dom = (throttle dom j st).now)
    ∧ List.Chain' (fun l1 l2 => l1.start + (MIN_DOMAIN_GAP - 5) ≤ l2.start)
        (httpLoop env url rem i d s).logs
    ∧ (∀ lg, ((httpLoop env url rem i d s).logs).getLast? = some lg →
        (httpLoop env url rem i d s).final.lastFetch (netloc url) = lg.start)
    ∧ (((httpLoop env url rem i d s).logs) = [] →
        (httpLoop env url rem i d s).final.lastFetch (netloc url)
          = s.lastFetch (netloc url)) := by
  obtain ⟨hchain, hnil, hlast, -⟩ := httpLoop_pacing env url hj rem i d s
  exact ⟨fun dom j st => ⟨throttle_now_eq dom j st, throttle_lastFetch_self dom j st⟩,
    hchain, hlast, hnil⟩

/-- Witness for C9: on the all-503 environment with zero jitter the three
logged attempt starts are properly spaced and the final last-fetch time is
the third attempt's start. -/
theorem c9_throttle_pacing_witness :
    List.Chain' (fun l1 l2 => l1.start + (MIN_DOMAIN_GAP - 5) ≤ l2.start)
      (httpLoop env503 ("https://example.com/x") 3 1 2 net0).logs :=
  (c9_throttle_pacing env503 ("https://example.com/x") 3 1 2 net0
    (by intro n; norm_num [env503])).2.1

end Watch
